import Mathlib

/-!
Verification development for `k8s-checksum-injector`.

The repository's `pkg/injector` package (the core transformation) is not
present under `src/`; only its test file, the CLI entry point
(`cmd/k8s-checksum-injector/main.go`) and the README are.  The definitions
below therefore model the injector from the specification (`spec.md`),
constrained by the behaviour pinned down in the test file
(`TestReferencedObjects`, `TestHashConfigMapAndSecretDeterministic`,
`TestProcessDeploymentDocModes`, `TestProcessDeploymentDocWithoutMatches`,
`TestSanitizeKey`, `TestInjectChecksums`).  YAML documents are modelled as
ordered trees (`Yaml`); mappings are association lists preserving entry
order, which is the observable structure the spec's Tree Mutator relies on
(overwrite in place / append at end).
-/

namespace Injector

/-- Structure-preserving YAML document tree: scalars, sequences and ordered
mappings with string keys, as produced by the Document Parser. -/
inductive Yaml where
  | scalar (s : String) : Yaml
  | seq (items : List Yaml) : Yaml
  | map (entries : List (String × Yaml)) : Yaml

/-- First binding of key `k` in an ordered association list. -/
def lookupKey {β : Type} : List (String × β) → String → Option β
  | [], _ => none
  | (k', v) :: rest, k => if k' = k then some v else lookupKey rest k

/-- Overwrite the first binding of `k` in place, or append a new binding at
the end when `k` is absent — the Tree Mutator's single map operation. -/
def setKey {β : Type} : List (String × β) → String → β → List (String × β)
  | [], k, v => [(k, v)]
  | (k', v') :: rest, k, v =>
    if k' = k then (k, v) :: rest else (k', v') :: setKey rest k v

/-- Apply `setKey` for each pair of `pairs` in order, starting from `m`. -/
def foldSet {β : Type} (pairs : List (String × β)) (m : List (String × β)) :
    List (String × β) :=
  pairs.foldl (fun acc p => setKey acc p.1 p.2) m

/-- Binding of `k` given by the LAST pair of `l` carrying `k`. -/
def lastLookup {β : Type} (l : List (String × β)) (k : String) : Option β :=
  lookupKey l.reverse k

/-- Entries of a mapping node; empty for scalars and sequences. -/
def getMapD : Yaml → List (String × Yaml)
  | .map m => m
  | _ => []

/-- Read the node reached by descending through mapping keys. -/
def getPath : Yaml → List String → Option Yaml
  | doc, [] => some doc
  | .map m, k :: ks =>
    match lookupKey m k with
    | some child => getPath child ks
    | none => none
  | _, _ :: _ => none

/-- Rewrite the mapping at the end of `path` with `f`, creating any missing
intermediate mapping nodes along the way as empty mappings (spec §4.6). -/
def updatePath : Yaml → List String → (List (String × Yaml) → List (String × Yaml)) → Yaml
  | doc, [], f => .map (f (getMapD doc))
  | doc, k :: ks, f =>
    .map (setKey (getMapD doc) k
      (updatePath ((lookupKey (getMapD doc) k).getD (.map [])) ks f))

/-- Scalar value found at `path`, or `""` when absent or not a scalar. -/
def scalarAt (doc : Yaml) (path : List String) : String :=
  match getPath doc path with
  | some (.scalar s) => s
  | _ => ""

/-- Scalar value found at `path`, when present. -/
def optScalarAt (doc : Yaml) (path : List String) : Option String :=
  match getPath doc path with
  | some (.scalar s) => some s
  | _ => none

/-- Mapping entries found at `path`, or `[]` when absent or not a mapping. -/
def entriesAt (doc : Yaml) (path : List String) : List (String × Yaml) :=
  match getPath doc path with
  | some (.map m) => m
  | _ => []

/-- Sequence items found at `path`, or `[]` when absent or not a sequence. -/
def itemsAt (doc : Yaml) (path : List String) : List Yaml :=
  match getPath doc path with
  | some (.seq items) => items
  | _ => []

/-- Byte view of a string, one codepoint per entry. -/
def strBytes (s : String) : List Nat := s.data.map Char.toNat

/-- Modelled from the spec: the Content Hasher's digest primitive lives in the
injector package, which is not under `src/`; the spec fixes only that a
deterministic cryptographic digest of the canonical byte stream is taken.
Modelled as a 64-bit FNV-1a style fold over the bytes. -/
def fnv64 (bytes : List Nat) : Nat :=
  bytes.foldl (fun h b => ((h ^^^ (b % 256)) * 1099511628211) % (2 ^ 64))
    14695981039346656037

/-- Lowercase hexadecimal digit for `n % 16`. -/
def hexDigit (n : Nat) : Char :=
  if n < 10 then Char.ofNat (48 + n) else Char.ofNat (87 + n)

/-- Last `k` lowercase hexadecimal digits of `n`, most significant first. -/
def hexChars : Nat → Nat → List Char
  | 0, _ => []
  | k + 1, n => hexChars k (n / 16) ++ [hexDigit (n % 16)]

/-- Modelled from the spec: fixed 12-hex-character truncation of the digest's
hexadecimal encoding (spec §4.5, §6 checksum key format). -/
def digest12 (bytes : List Nat) : String := String.mk (hexChars 12 (fnv64 bytes))

/-- Lexicographic comparison of character lists by codepoint. -/
def leChars : List Char → List Char → Bool
  | [], _ => true
  | _ :: _, [] => false
  | a :: as, b :: bs =>
    if a < b then true
    else if b < a then false
    else leChars as bs

/-- Lexicographic string comparison used for the spec's sorting steps. -/
def strLeB (a b : String) : Bool := leChars a.data b.data

/-- Sort a list of strings lexicographically (spec §4.4). -/
def sortStrings (l : List String) : List String :=
  List.insertionSort (fun a b => strLeB a b = true) l

/-- Sort an association list lexicographically by key (spec §4.5). -/
def sortByKey {β : Type} (l : List (String × β)) : List (String × β) :=
  List.insertionSort (fun p q => strLeB p.1 q.1 = true) l

/-- Canonical byte stream of a data payload: entries in sorted-key order,
each key's bytes immediately followed by its value bytes, no separators. -/
def canonicalBytes (entries : List (String × List Nat)) : List Nat :=
  (sortByKey entries).flatMap (fun p => strBytes p.1 ++ p.2)

/-- Typed ConfigMap projection: name and string-valued data entries. -/
structure ConfigMap where
  name : String
  data : List (String × String)

/-- Typed Secret projection: name and byte-valued data entries, with
`stringData` already merged in by the Typed Decoder (spec §4.5). -/
structure Secret where
  name : String
  data : List (String × List Nat)

/-- Modelled from the spec: `hashConfigMap` of the injector package (not under
`src/`) — short content hash of a ConfigMap's data payload (spec §4.5). -/
def hashConfigMap (cm : ConfigMap) : String :=
  digest12 (canonicalBytes (cm.data.map (fun p => (p.1, strBytes p.2))))

/-- Modelled from the spec: `hashSecret` of the injector package (not under
`src/`) — short content hash of a Secret's merged data payload. -/
def hashSecret (s : Secret) : String := digest12 (canonicalBytes s.data)

/-- Pod volume: optional ConfigMap source name, optional Secret source name. -/
structure Volume where
  configMap : Option String
  secret : Option String

/-- One `envFrom` entry of a container. -/
structure EnvFromSource where
  configMapRef : Option String
  secretRef : Option String

/-- One `env` entry of a container: a literal value, or a value sourced from
a ConfigMap key or a Secret key. -/
structure EnvVar where
  value : Option String
  configMapKeyRef : Option String
  secretKeyRef : Option String

/-- Container projection: `envFrom` entries and `env` entries. -/
structure Container where
  envFrom : List EnvFromSource
  env : List EnvVar

/-- Typed Deployment projection: the pod template's volumes and containers. -/
structure Deployment where
  volumes : List Volume
  containers : List Container

/-- ConfigMap names mentioned anywhere in the pod template, in scan order. -/
def collectConfigMapNames (d : Deployment) : List String :=
  d.volumes.filterMap (fun v => v.configMap) ++
    d.containers.flatMap (fun c =>
      c.envFrom.filterMap (fun e => e.configMapRef) ++
        c.env.filterMap (fun e => e.configMapKeyRef))

/-- Secret names mentioned anywhere in the pod template, in scan order. -/
def collectSecretNames (d : Deployment) : List String :=
  d.volumes.filterMap (fun v => v.secret) ++
    d.containers.flatMap (fun c =>
      c.envFrom.filterMap (fun e => e.secretRef) ++
        c.env.filterMap (fun e => e.secretKeyRef))

/-- Discard empty names, merge duplicates, sort lexicographically (§4.4). -/
def dropEmptyDedupSort (l : List String) : List String :=
  sortStrings (l.filter (fun n => n != "")).dedup

/-- Modelled from the spec: `referencedObjects` of the injector package (not
under `src/`) — the two sorted, deduplicated reference name sequences of a
Deployment (spec §4.4, `TestReferencedObjects`). -/
def referencedObjects (d : Deployment) : List String × List String :=
  (dropEmptyDedupSort (collectConfigMapNames d),
    dropEmptyDedupSort (collectSecretNames d))

/-- Modelled from the spec: `sanitizeKey` of the injector package (not under
`src/`) — replace every period with a hyphen, leave all else (src
`TestSanitizeKey`). -/
def sanitizeKey (name : String) : String :=
  String.mk (name.data.map (fun c => if c = '.' then '-' else c))

/-- Injection mode, a string as in the Go `type Mode string`. -/
abbrev Mode := String

/-- Label mode constant. -/
def ModeLabel : Mode := "label"

/-- Annotation mode constant. -/
def ModeAnnot : Mode := "annotation"

/-- A Deployment's original tree paired with its typed projection, as in the
Go `deploymentDoc` struct. -/
structure deploymentDoc where
  node : Yaml
  obj : Deployment

/-- Metadata field targeted by a mode. -/
def targetField (mode : Mode) : String :=
  if mode = ModeAnnot then "annotations" else "labels"

/-- Path of the pod template mapping targeted by a mode. -/
def metaPath (mode : Mode) : List String :=
  ["spec", "template", "metadata", targetField mode]

/-- Modelled from the spec: checksum key/value pairs of one Deployment — one
pair per referenced resource that has an entry in the checksum table, with
the fixed key prefixes of spec §6. -/
def checksumPairs (obj : Deployment) (cmHashes secretHashes : List (String × String)) :
    List (String × String) :=
  (referencedObjects obj).1.filterMap (fun n =>
      (lookupKey cmHashes n).map (fun h => ("checksum/configmap-" ++ sanitizeKey n, h))) ++
    (referencedObjects obj).2.filterMap (fun n =>
      (lookupKey secretHashes n).map (fun h => ("checksum/secret-" ++ sanitizeKey n, h)))

/-- Modelled from the spec: `processDeploymentDoc` of the injector package
(not under `src/`) — inject the Deployment's checksum pairs into the pod
template mapping selected by `mode`; no-op when there are no pairs
(spec §4.6, `TestProcessDeploymentDocModes`). -/
def processDeploymentDoc (dd : deploymentDoc)
    (cmHashes secretHashes : List (String × String)) (mode : Mode) : Yaml :=
  let pairs := checksumPairs dd.obj cmHashes secretHashes
  if pairs.isEmpty then dd.node
  else
    updatePath dd.node (metaPath mode)
      (fun m => foldSet (pairs.map (fun p => (p.1, Yaml.scalar p.2))) m)

/-- Kind Classifier: top-level `kind` scalar, or `""` (spec §4.2). -/
def kindOf (doc : Yaml) : String := scalarAt doc ["kind"]

/-- Modelled from the spec: typed decoding of a ConfigMap document —
`metadata.name` and the scalar entries of `data` (spec §4.3). -/
def decodeConfigMap (doc : Yaml) : ConfigMap where
  name := scalarAt doc ["metadata", "name"]
  data := (entriesAt doc ["data"]).filterMap (fun p =>
    match p.2 with
    | .scalar s => some (p.1, s)
    | _ => none)

/-- Merge a Secret's byte data with its string data: string data wins on a
colliding key (spec §4.5). -/
def mergeSecretData (dataEntries stringDataEntries : List (String × List Nat)) :
    List (String × List Nat) :=
  foldSet stringDataEntries dataEntries

/-- Byte-valued scalar entries of one top-level Secret field. -/
def secretEntries (doc : Yaml) (field : String) : List (String × List Nat) :=
  (entriesAt doc [field]).filterMap (fun p =>
    match p.2 with
    | .scalar s => some (p.1, strBytes s)
    | _ => none)

/-- Modelled from the spec: typed decoding of a Secret document — the Typed
Decoder unifies `data` and `stringData` into one map before hashing, string
data taking precedence on collision (spec §4.5). -/
def decodeSecret (doc : Yaml) : Secret where
  name := scalarAt doc ["metadata", "name"]
  data := mergeSecretData (secretEntries doc "data") (secretEntries doc "stringData")

/-- Typed decoding of one pod volume. -/
def decodeVolume (v : Yaml) : Volume where
  configMap := optScalarAt v ["configMap", "name"]
  secret := optScalarAt v ["secret", "secretName"]

/-- Typed decoding of one `envFrom` entry. -/
def decodeEnvFrom (e : Yaml) : EnvFromSource where
  configMapRef := optScalarAt e ["configMapRef", "name"]
  secretRef := optScalarAt e ["secretRef", "name"]

/-- Typed decoding of one `env` entry. -/
def decodeEnvVar (e : Yaml) : EnvVar where
  value := optScalarAt e ["value"]
  configMapKeyRef := optScalarAt e ["valueFrom", "configMapKeyRef", "name"]
  secretKeyRef := optScalarAt e ["valueFrom", "secretKeyRef", "name"]

/-- Typed decoding of one container. -/
def decodeContainer (c : Yaml) : Container where
  envFrom := (itemsAt c ["envFrom"]).map decodeEnvFrom
  env := (itemsAt c ["env"]).map decodeEnvVar

/-- Modelled from the spec: typed decoding of a Deployment document — the pod
template's volumes and containers (spec §4.3). -/
def decodeDeployment (doc : Yaml) : Deployment where
  volumes := (itemsAt doc ["spec", "template", "spec", "volumes"]).map decodeVolume
  containers := (itemsAt doc ["spec", "template", "spec", "containers"]).map decodeContainer

/-- One step of building the ConfigMap checksum table: a ConfigMap document
with a non-empty name is entered under its name, last one wins (spec §3). -/
def cmTableStep (t : List (String × String)) (doc : Yaml) : List (String × String) :=
  if kindOf doc = "ConfigMap" then
    let cm := decodeConfigMap doc
    if cm.name = "" then t else setKey t cm.name (hashConfigMap cm)
  else t

/-- One step of building the Secret checksum table. -/
def secretTableStep (t : List (String × String)) (doc : Yaml) : List (String × String) :=
  if kindOf doc = "Secret" then
    let s := decodeSecret doc
    if s.name = "" then t else setKey t s.name (hashSecret s)
  else t

/-- Modelled from the spec: the ConfigMap checksum table, built once per run
in stream order (spec §3, Checksum Table). -/
def buildCMTable (docs : List Yaml) : List (String × String) :=
  docs.foldl cmTableStep []

/-- Modelled from the spec: the Secret checksum table. -/
def buildSecretTable (docs : List Yaml) : List (String × String) :=
  docs.foldl secretTableStep []

/-- Per-document pass: only Deployment documents are handed to
`processDeploymentDoc`; every other document passes through (spec §4.2). -/
def processDoc (cmHashes secretHashes : List (String × String)) (mode : Mode)
    (doc : Yaml) : Yaml :=
  if kindOf doc = "Deployment" then
    processDeploymentDoc ⟨doc, decodeDeployment doc⟩ cmHashes secretHashes mode
  else doc

/-- Modelled from the spec: Document Parser output — an input stream is an
ordered list of documents in which `none` stands for an empty document;
empty documents are dropped (spec §4.1). -/
def parseStream (input : List (Option Yaml)) : List Yaml := input.filterMap id

/-- Modelled from the spec: `InjectChecksums` of the injector package (not
under `src/`) — validate the mode, build both checksum tables, then rewrite
each document in order (spec §2 data flow, §6). -/
def InjectChecksums (input : List (Option Yaml)) (mode : Mode) :
    Except String (List Yaml) :=
  if mode = ModeLabel ∨ mode = ModeAnnot then
    let docs := parseStream input
    .ok (docs.map (processDoc (buildCMTable docs) (buildSecretTable docs) mode))
  else .error ("invalid mode: " ++ mode)

/-- Shallow embedding of `cmd/k8s-checksum-injector/main.go`: run
`InjectChecksums` on the full input; on error exit 1 with no output, on
success exit 0 writing the output (stdin/stdout transport failures are
outside the model). -/
def mainRun (modeStr : String) (input : List (Option Yaml)) :
    Nat × Option (List Yaml) :=
  match InjectChecksums input modeStr with
  | .ok out => (0, some out)
  | .error _ => (1, none)

/-! Concrete fixtures, mirroring the documents used by the test file and the
spec's end-to-end scenario (spec §8). -/

/-- ConfigMap document `app.config` with data `{a: one, b: two}`. -/
def sampleConfigMap : Yaml :=
  .map [("apiVersion", .scalar "v1"), ("kind", .scalar "ConfigMap"),
    ("metadata", .map [("name", .scalar "app.config")]),
    ("data", .map [("a", .scalar "one"), ("b", .scalar "two")])]

/-- Secret document `top.secret` with string data `{password: s3cr3t}`. -/
def sampleSecret : Yaml :=
  .map [("apiVersion", .scalar "v1"), ("kind", .scalar "Secret"),
    ("metadata", .map [("name", .scalar "top.secret")]),
    ("stringData", .map [("password", .scalar "s3cr3t")])]

/-- Deployment document referencing both resources via `envFrom` and
`env[].valueFrom`. -/
def sampleDeployment : Yaml :=
  .map [("apiVersion", .scalar "apps/v1"), ("kind", .scalar "Deployment"),
    ("metadata", .map [("name", .scalar "demo")]),
    ("spec", .map [("template", .map [
      ("metadata", .map [("labels", .map [("app", .scalar "demo")])]),
      ("spec", .map [("containers", .seq [Yaml.map [
        ("name", .scalar "app"),
        ("envFrom", .seq [Yaml.map [("configMapRef",
          .map [("name", .scalar "app.config")])]]),
        ("env", .seq [Yaml.map [("name", .scalar "PASSWORD"),
          ("valueFrom", .map [("secretKeyRef",
            .map [("name", .scalar "top.secret"),
              ("key", .scalar "password")])])]])]])])])])]

/-- The three-document sample input stream. -/
def sampleInput : List (Option Yaml) :=
  [some sampleConfigMap, some sampleSecret, some sampleDeployment]

/-- The sample Deployment after an annotation-mode run. -/
def sampleDeploymentOut : Yaml :=
  .map [("apiVersion", .scalar "apps/v1"), ("kind", .scalar "Deployment"),
    ("metadata", .map [("name", .scalar "demo")]),
    ("spec", .map [("template", .map [
      ("metadata", .map [
        ("labels", .map [("app", .scalar "demo")]),
        ("annotations", .map [
          ("checksum/configmap-app-config", .scalar "e1514bda43a4"),
          ("checksum/secret-top-secret", .scalar "96fc5c726428")])]),
      ("spec", .map [("containers", .seq [Yaml.map [
        ("name", .scalar "app"),
        ("envFrom", .seq [Yaml.map [("configMapRef",
          .map [("name", .scalar "app.config")])]]),
        ("env", .seq [Yaml.map [("name", .scalar "PASSWORD"),
          ("valueFrom", .map [("secretKeyRef",
            .map [("name", .scalar "top.secret"),
              ("key", .scalar "password")])])]])]])])])])]

/-- The sample output stream of an annotation-mode run. -/
def sampleOut : List Yaml := [sampleConfigMap, sampleSecret, sampleDeploymentOut]

/-- ConfigMap document with a name but no `data` mapping at all. -/
def cmDocNoData (n : String) : Yaml :=
  .map [("apiVersion", .scalar "v1"), ("kind", .scalar "ConfigMap"),
    ("metadata", .map [("name", .scalar n)])]

/-- Deployment document whose only reference is a ConfigMap named `n` via
`envFrom`. -/
def depDocRefCM (n : String) : Yaml :=
  .map [("apiVersion", .scalar "apps/v1"), ("kind", .scalar "Deployment"),
    ("metadata", .map [("name", .scalar "demo")]),
    ("spec", .map [("template", .map [("metadata", .map []),
      ("spec", .map [("containers", .seq [Yaml.map [("envFrom",
        .seq [Yaml.map [("configMapRef", .map [("name", .scalar n)])]])]])])])])]

/-- `depDocRefCM n` after a label-mode run against `cmDocNoData n`. -/
def depDocInjected (n : String) : Yaml :=
  .map [("apiVersion", .scalar "apps/v1"), ("kind", .scalar "Deployment"),
    ("metadata", .map [("name", .scalar "demo")]),
    ("spec", .map [("template", .map [
      ("metadata", .map [("labels",
        .map [("checksum/configmap-" ++ sanitizeKey n, .scalar (digest12 []))])]),
      ("spec", .map [("containers", .seq [Yaml.map [("envFrom",
        .seq [Yaml.map [("configMapRef", .map [("name", .scalar n)])]])]])])])])]

/-! Association-list lemmas for `lookupKey`, `setKey` and `foldSet`. -/

theorem foldSet_nil {β : Type} (m : List (String × β)) : foldSet [] m = m := rfl

theorem foldSet_cons {β : Type} (p : String × β) (l m : List (String × β)) :
    foldSet (p :: l) m = foldSet l (setKey m p.1 p.2) := rfl

theorem lookupKey_setKey_self {β : Type} (m : List (String × β)) (k : String) (v : β) :
    lookupKey (setKey m k v) k = some v := by
  induction m with
  | nil => simp [setKey, lookupKey]
  | cons p rest ih =>
    obtain ⟨k', v'⟩ := p
    by_cases h : k' = k
    · simp [setKey, h, lookupKey]
    · simp [setKey, h, lookupKey, ih]

theorem lookupKey_setKey_ne {β : Type} (m : List (String × β)) {k k' : String} (v : β)
    (h : k' ≠ k) : lookupKey (setKey m k v) k' = lookupKey m k' := by
  induction m with
  | nil => simp [setKey, lookupKey, Ne.symm h]
  | cons p rest ih =>
    obtain ⟨a, b⟩ := p
    by_cases ha : a = k
    · subst ha
      simp [setKey, lookupKey, Ne.symm h]
    · simp only [setKey, if_neg ha]
      by_cases ha' : a = k'
      · simp [lookupKey, ha']
      · simp [lookupKey, ha', ih]

theorem setKey_setKey_same {β : Type} (m : List (String × β)) (k : String) (v w : β) :
    setKey (setKey m k v) k w = setKey m k w := by
  induction m with
  | nil => simp [setKey]
  | cons p rest ih =>
    obtain ⟨a, b⟩ := p
    by_cases ha : a = k
    · simp [setKey, ha]
    · simp [setKey, ha, ih]

theorem lookupKey_append {β : Type} (xs ys : List (String × β)) (k : String) :
    lookupKey (xs ++ ys) k = (lookupKey xs k).or (lookupKey ys k) := by
  induction xs with
  | nil => simp [lookupKey]
  | cons p rest ih =>
    obtain ⟨a, b⟩ := p
    by_cases ha : a = k
    · simp [lookupKey, ha]
    · simp [lookupKey, ha, ih]

theorem lastLookup_nil {β : Type} (k : String) : lastLookup ([] : List (String × β)) k = none :=
  rfl

theorem lastLookup_cons {β : Type} (p : String × β) (l : List (String × β)) (k : String) :
    lastLookup (p :: l) k
      = (lastLookup l k).or (if p.1 = k then some p.2 else none) := by
  unfold lastLookup
  rw [List.reverse_cons, lookupKey_append]
  obtain ⟨a, b⟩ := p
  by_cases ha : a = k <;> simp [lookupKey, ha]

theorem lookupKey_eq_none {β : Type} {l : List (String × β)} {k : String}
    (h : k ∉ l.map Prod.fst) : lookupKey l k = none := by
  induction l with
  | nil => rfl
  | cons p rest ih =>
    obtain ⟨a, b⟩ := p
    simp only [List.map_cons, List.mem_cons, not_or] at h
    simp [lookupKey, Ne.symm h.1, ih h.2]

theorem lastLookup_eq_none {β : Type} {l : List (String × β)} {k : String}
    (h : k ∉ l.map Prod.fst) : lastLookup l k = none := by
  unfold lastLookup
  refine lookupKey_eq_none ?_
  rw [List.map_reverse, List.mem_reverse]
  exact h

theorem lookupKey_of_mem_nodup {β : Type} {l : List (String × β)} {k : String} {v : β}
    (hnd : (l.map Prod.fst).Nodup) (h : (k, v) ∈ l) : lookupKey l k = some v := by
  induction l with
  | nil => cases h
  | cons p rest ih =>
    obtain ⟨a, b⟩ := p
    simp only [List.map_cons, List.nodup_cons] at hnd
    rcases List.mem_cons.mp h with h | h
    · obtain ⟨hk, hv⟩ := Prod.mk.injEq .. ▸ h
      simp [lookupKey, hk.symm, hv]
    · have hak : a ≠ k := by
        intro e
        exact hnd.1 (e ▸ (List.mem_map.mpr ⟨(k, v), h, rfl⟩))
      simp [lookupKey, hak, ih hnd.2 h]

theorem lastLookup_of_mem_nodup {β : Type} {l : List (String × β)} {k : String} {v : β}
    (hnd : (l.map Prod.fst).Nodup) (h : (k, v) ∈ l) : lastLookup l k = some v := by
  unfold lastLookup
  refine lookupKey_of_mem_nodup ?_ (List.mem_reverse.mpr h)
  rw [List.map_reverse]
  exact List.nodup_reverse.mpr hnd

theorem foldSet_cons_head {β : Type} (l : List (String × β)) (k : String) (v : β)
    (m : List (String × β)) :
    foldSet l ((k, v) :: m)
      = (k, (lastLookup l k).getD v) :: foldSet (l.filter (fun p => p.1 != k)) m := by
  induction l generalizing v m with
  | nil => simp [foldSet, lastLookup, lookupKey]
  | cons p l' ih =>
    obtain ⟨a, b⟩ := p
    rw [foldSet_cons]
    by_cases ha : a = k
    · subst ha
      have hset : setKey ((a, v) :: m) a b = (a, b) :: m := by simp [setKey]
      rw [hset, ih b m]
      have hlast : lastLookup (((a, b) : String × β) :: l') a
          = (lastLookup l' a).or (some b) := by
        rw [lastLookup_cons]
        simp
      have hgd : ((lastLookup l' a).or (some b)).getD v = (lastLookup l' a).getD b := by
        cases lastLookup l' a <;> simp [Option.or]
      have hfil : (((a, b) : String × β) :: l').filter (fun p => p.1 != a)
          = l'.filter (fun p => p.1 != a) := by
        simp [List.filter_cons]
      rw [hlast, hgd, hfil]
    · have hset : setKey ((k, v) :: m) a b = (k, v) :: setKey m a b := by
        simp [setKey, Ne.symm ha]
      rw [hset, ih v (setKey m a b)]
      have hlast : lastLookup (((a, b) : String × β) :: l') k = lastLookup l' k := by
        rw [lastLookup_cons]
        simp [ha]
      have hfil : (((a, b) : String × β) :: l').filter (fun p => p.1 != k)
          = (a, b) :: l'.filter (fun p => p.1 != k) := by
        simp [List.filter_cons, ha]
      rw [hlast, hfil, foldSet_cons]

theorem foldSet_self_nil {β : Type} (l : List (String × β)) :
    foldSet l (foldSet l []) = foldSet l [] := by
  generalize h : l.length = n
  induction n using Nat.strong_induction_on generalizing l with
  | _ n ih =>
    cases l with
    | nil => simp [foldSet]
    | cons p l' =>
      obtain ⟨a, b⟩ := p
      have hfirst : foldSet ((a, b) :: l') []
          = (a, (lastLookup l' a).getD b) :: foldSet (l'.filter (fun q => q.1 != a)) [] := by
        rw [foldSet_cons]
        show foldSet l' (setKey [] a b) = _
        have : setKey ([] : List (String × β)) a b = [(a, b)] := rfl
        rw [this]
        exact foldSet_cons_head l' a b []
      rw [hfirst, foldSet_cons]
      have hset : setKey ((a, (lastLookup l' a).getD b) :: foldSet (l'.filter (fun q => q.1 != a)) []) a b
          = (a, b) :: foldSet (l'.filter (fun q => q.1 != a)) [] := by
        simp [setKey]
      rw [hset, foldSet_cons_head]
      have hlen : (l'.filter (fun q => q.1 != a)).length < n := by
        subst h
        exact Nat.lt_succ_of_le (List.length_filter_le _ l')
      rw [ih _ hlen _ rfl]

theorem foldSet_idem {β : Type} (m l : List (String × β)) :
    foldSet l (foldSet l m) = foldSet l m := by
  induction m generalizing l with
  | nil => exact foldSet_self_nil l
  | cons p m' ih =>
    obtain ⟨k, v⟩ := p
    rw [foldSet_cons_head l k v m', foldSet_cons_head l k _ _]
    have habs : (lastLookup l k).getD ((lastLookup l k).getD v) = (lastLookup l k).getD v := by
      cases lastLookup l k <;> simp
    rw [habs, ih (l.filter (fun q => q.1 != k))]

theorem lookupKey_foldSet {β : Type} (l m : List (String × β)) (k : String) :
    lookupKey (foldSet l m) k = (lastLookup l k).or (lookupKey m k) := by
  induction l generalizing m with
  | nil => simp [foldSet, lastLookup, lookupKey]
  | cons p l' ih =>
    obtain ⟨a, b⟩ := p
    rw [foldSet_cons, ih (setKey m a b), lastLookup_cons]
    by_cases ha : a = k
    · subst ha
      rw [lookupKey_setKey_self]
      simp only [if_pos rfl, Option.or_assoc]
      cases lastLookup l' a <;> simp [Option.or]
    · rw [lookupKey_setKey_ne m b (fun e => ha e.symm)]
      simp [ha]

theorem keys_foldSet_nil {β : Type} (l : List (String × β))
    (hnd : (l.map Prod.fst).Nodup) :
    (foldSet l []).map Prod.fst = l.map Prod.fst := by
  induction l with
  | nil => rfl
  | cons p l' ih =>
    obtain ⟨a, b⟩ := p
    simp only [List.map_cons, List.nodup_cons] at hnd
    have hfirst : foldSet ((a, b) :: l') []
        = (a, (lastLookup l' a).getD b) :: foldSet (l'.filter (fun q => q.1 != a)) [] := by
      rw [foldSet_cons]
      show foldSet l' (setKey [] a b) = _
      exact foldSet_cons_head l' a b []
    have hfil : l'.filter (fun q => q.1 != a) = l' := by
      rw [List.filter_eq_self]
      intro q hq
      have : q.1 ∈ l'.map Prod.fst := List.mem_map.mpr ⟨q, hq, rfl⟩
      simp only [bne_iff_ne, ne_eq]
      intro e
      exact hnd.1 (e ▸ this)
    rw [hfirst, hfil]
    simp [ih hnd.2]

theorem keys_filter_comm {β : Type} (l : List (String × β)) (a : String) :
    (l.filter (fun q => q.1 != a)).map Prod.fst = (l.map Prod.fst).filter (fun k => k != a) := by
  rw [List.filter_map]
  rfl

theorem keys_foldSet {β : Type} (m l : List (String × β))
    (hnd : (l.map Prod.fst).Nodup) :
    (foldSet l m).map Prod.fst
      = m.map Prod.fst
        ++ (l.map Prod.fst).filter (fun k => decide (k ∉ m.map Prod.fst)) := by
  induction m generalizing l with
  | nil =>
    rw [keys_foldSet_nil l hnd]
    simp
  | cons p m' ih =>
    obtain ⟨k₀, v₀⟩ := p
    have hnd' : ((l.filter (fun q => q.1 != k₀)).map Prod.fst).Nodup := by
      rw [keys_filter_comm]
      exact hnd.filter _
    have htail : ((l.map Prod.fst).filter (fun k => k != k₀)).filter
          (fun k => decide (k ∉ m'.map Prod.fst))
        = (l.map Prod.fst).filter (fun k => decide (k ∉ k₀ :: m'.map Prod.fst)) := by
      rw [List.filter_filter]
      refine List.filter_congr ?_
      intro k _
      by_cases h1 : k = k₀ <;> by_cases h2 : k ∈ m'.map Prod.fst <;> simp [h1, h2]
    rw [foldSet_cons_head l k₀ v₀ m', List.map_cons,
      ih (l.filter (fun q => q.1 != k₀)) hnd', keys_filter_comm, htail]
    simp

/-! Path lemmas for `getPath` and `updatePath`. -/

theorem getPath_map_nil {p : List String} (h : p ≠ []) : getPath (.map []) p = none := by
  cases p with
  | nil => exact absurd rfl h
  | cons k ks => simp [getPath, lookupKey]

theorem entriesAt_map_nil (p : List String) : entriesAt (.map []) p = [] := by
  cases p with
  | nil => rfl
  | cons k ks => simp [entriesAt, getPath, lookupKey]

theorem getMapD_eq_entriesAt_nil (doc : Yaml) : getMapD doc = entriesAt doc [] := by
  cases doc <;> rfl

theorem entriesAt_cons (doc : Yaml) (k : String) (ks : List String) :
    entriesAt doc (k :: ks)
      = entriesAt ((lookupKey (getMapD doc) k).getD (.map [])) ks := by
  cases doc with
  | map m =>
    cases hx : lookupKey m k with
    | some c => simp [entriesAt, getPath, getMapD, hx]
    | none =>
      simp only [entriesAt, getPath, getMapD, hx, Option.getD_none]
      exact (entriesAt_map_nil ks).symm
  | scalar s =>
    simp only [entriesAt, getPath, getMapD, lookupKey, Option.getD_none]
    exact (entriesAt_map_nil ks).symm
  | seq items =>
    simp only [entriesAt, getPath, getMapD, lookupKey, Option.getD_none]
    exact (entriesAt_map_nil ks).symm

theorem getPath_updatePath_ne (q : List String) {a b : String} (hab : a ≠ b)
    (q₁ q₂ : List String) (f : List (String × Yaml) → List (String × Yaml)) :
    ∀ doc : Yaml, getPath (updatePath doc (q ++ a :: q₁) f) (q ++ b :: q₂)
      = getPath doc (q ++ b :: q₂) := by
  induction q with
  | nil =>
    intro doc
    simp only [List.nil_append, updatePath, getPath]
    rw [lookupKey_setKey_ne _ _ (Ne.symm hab)]
    cases doc with
    | map m => simp [getMapD, getPath]
    | scalar s => simp [getMapD, lookupKey, getPath]
    | seq items => simp [getMapD, lookupKey, getPath]
  | cons x q' ih =>
    intro doc
    have hne : q' ++ b :: q₂ ≠ [] := by
      cases q' <;> simp
    simp only [List.cons_append, updatePath, getPath, List.append_eq]
    rw [lookupKey_setKey_self]
    cases doc with
    | map m =>
      cases hx : lookupKey m x with
      | some c => simp [getMapD, getPath, hx, ih c]
      | none =>
        simp only [getMapD, hx, Option.getD_none]
        rw [ih (.map [])]
        simp [getPath_map_nil hne, getPath, hx]
    | scalar s =>
      simp only [getMapD, lookupKey, Option.getD_none]
      rw [ih (.map [])]
      simp [getPath_map_nil hne, getPath]
    | seq items =>
      simp only [getMapD, lookupKey, Option.getD_none]
      rw [ih (.map [])]
      simp [getPath_map_nil hne, getPath]

theorem getPath_updatePath_self (p : List String)
    (f : List (String × Yaml) → List (String × Yaml)) :
    ∀ doc : Yaml, getPath (updatePath doc p f) p = some (.map (f (entriesAt doc p))) := by
  induction p with
  | nil =>
    intro doc
    simp only [updatePath, getPath]
    rw [getMapD_eq_entriesAt_nil]
  | cons k ks ih =>
    intro doc
    simp only [updatePath, getPath]
    rw [lookupKey_setKey_self]
    show getPath (updatePath ((lookupKey (getMapD doc) k).getD (.map [])) ks f) ks
      = some (.map (f (entriesAt doc (k :: ks))))
    rw [ih ((lookupKey (getMapD doc) k).getD (.map [])), entriesAt_cons doc k ks]

theorem updatePath_updatePath (p : List String)
    (f g : List (String × Yaml) → List (String × Yaml)) :
    ∀ doc : Yaml, updatePath (updatePath doc p f) p g
      = updatePath doc p (fun m => g (f m)) := by
  induction p with
  | nil =>
    intro doc
    simp [updatePath, getMapD]
  | cons k ks ih =>
    intro doc
    conv =>
      lhs
      simp only [updatePath]
    rw [show getMapD (.map (setKey (getMapD doc) k
        (updatePath ((lookupKey (getMapD doc) k).getD (.map [])) ks f))) = setKey (getMapD doc) k
        (updatePath ((lookupKey (getMapD doc) k).getD (.map [])) ks f) from rfl]
    rw [lookupKey_setKey_self]
    simp only [Option.getD_some]
    rw [setKey_setKey_same, ih ((lookupKey (getMapD doc) k).getD (.map []))]
    rfl

/-! Ordering lemmas for `leChars`, `strLeB` and the sorting helpers. -/

theorem leChars_total : ∀ as bs : List Char, leChars as bs = true ∨ leChars bs as = true
  | [], _ => Or.inl rfl
  | _ :: _, [] => Or.inr rfl
  | a :: as, b :: bs => by
    by_cases h1 : a < b
    · left
      simp [leChars, h1]
    · by_cases h2 : b < a
      · right
        simp [leChars, h2]
      · rcases leChars_total as bs with h | h
        · left
          simp [leChars, h1, h2, h]
        · right
          simp [leChars, h1, h2, h]

theorem leChars_trans : ∀ as bs cs : List Char,
    leChars as bs = true → leChars bs cs = true → leChars as cs = true
  | [], _, _, _, _ => rfl
  | _ :: _, [], _, h1, _ => by simp [leChars] at h1
  | _ :: _, _ :: _, [], _, h2 => by simp [leChars] at h2
  | a :: as, b :: bs, c :: cs, h1, h2 => by
    simp only [leChars] at h1 h2 ⊢
    by_cases hab : a < b
    · by_cases hbc : b < c
      · simp [lt_trans hab hbc]
      · by_cases hcb : c < b
        · simp [hbc, hcb] at h2
        · have : b = c := le_antisymm (not_lt.mp hcb) (not_lt.mp hbc)
          subst this
          simp [hab]
    · by_cases hba : b < a
      · simp [hab, hba] at h1
      · have : a = b := le_antisymm (not_lt.mp hba) (not_lt.mp hab)
        subst this
        simp only [hab, if_neg hab, lt_irrefl, if_false] at h1 ⊢
        by_cases hac : a < c
        · simp [hac]
        · by_cases hca : c < a
          · simp [hac, hca] at h2
          · simp only [hac, hca, if_false] at h2 ⊢
            exact leChars_trans as bs cs h1 h2

theorem leChars_antisymm : ∀ as bs : List Char,
    leChars as bs = true → leChars bs as = true → as = bs
  | [], [], _, _ => rfl
  | [], _ :: _, _, h2 => by simp [leChars] at h2
  | _ :: _, [], h1, _ => by simp [leChars] at h1
  | a :: as, b :: bs, h1, h2 => by
    simp only [leChars] at h1 h2
    by_cases hab : a < b
    · simp [lt_asymm hab, hab] at h2
    · by_cases hba : b < a
      · simp [hab, hba] at h1
      · have hE : a = b := le_antisymm (not_lt.mp hba) (not_lt.mp hab)
        subst hE
        simp only [lt_irrefl, if_false] at h1 h2
        rw [leChars_antisymm as bs h1 h2]

theorem strLeB_total (a b : String) : strLeB a b = true ∨ strLeB b a = true :=
  leChars_total a.data b.data

theorem strLeB_trans {a b c : String} (h1 : strLeB a b = true) (h2 : strLeB b c = true) :
    strLeB a c = true :=
  leChars_trans a.data b.data c.data h1 h2

theorem strLeB_antisymm {a b : String} (h1 : strLeB a b = true) (h2 : strLeB b a = true) :
    a = b := by
  obtain ⟨da⟩ := a
  obtain ⟨db⟩ := b
  exact congrArg String.mk (leChars_antisymm da db h1 h2)

instance : IsTotal String (fun a b => strLeB a b = true) := ⟨strLeB_total⟩

instance : IsTrans String (fun a b => strLeB a b = true) := ⟨fun _ _ _ => strLeB_trans⟩

instance {β : Type} : IsTotal (String × β) (fun p q => strLeB p.1 q.1 = true) :=
  ⟨fun p q => strLeB_total p.1 q.1⟩

instance {β : Type} : IsTrans (String × β) (fun p q => strLeB p.1 q.1 = true) :=
  ⟨fun _ _ _ => strLeB_trans⟩

theorem sortByKey_eq_of_perm {β : Type} {l₁ l₂ : List (String × β)} (hp : l₁.Perm l₂)
    (hnd : (l₁.map Prod.fst).Nodup) : sortByKey l₁ = sortByKey l₂ := by
  have hperm : (sortByKey l₁).Perm (sortByKey l₂) :=
    (List.perm_insertionSort _ l₁).trans (hp.trans (List.perm_insertionSort _ l₂).symm)
  have hnd1 : ((sortByKey l₁).map Prod.fst).Nodup :=
    (((List.perm_insertionSort _ l₁).map Prod.fst).symm).nodup hnd
  have hnd2 : ((sortByKey l₂).map Prod.fst).Nodup :=
    ((hperm.map Prod.fst)).nodup hnd1
  have hstrict1 : List.Pairwise
      (fun p q : String × β => strLeB p.1 q.1 = true ∧ p.1 ≠ q.1) (sortByKey l₁) :=
    (List.sorted_insertionSort _ l₁).and (List.pairwise_map.mp hnd1)
  have hstrict2 : List.Pairwise
      (fun p q : String × β => strLeB p.1 q.1 = true ∧ p.1 ≠ q.1) (sortByKey l₂) :=
    (List.sorted_insertionSort _ l₂).and (List.pairwise_map.mp hnd2)
  haveI : IsAntisymm (String × β) (fun p q => strLeB p.1 q.1 = true ∧ p.1 ≠ q.1) :=
    ⟨fun p q h1 h2 => absurd (strLeB_antisymm h1.1 h2.1) h1.2⟩
  exact List.eq_of_perm_of_sorted hperm hstrict1 hstrict2

theorem mem_dropEmptyDedupSort {l : List String} {n : String} :
    n ∈ dropEmptyDedupSort l ↔ n ∈ l ∧ n ≠ "" := by
  unfold dropEmptyDedupSort sortStrings
  rw [List.mem_insertionSort, List.mem_dedup, List.mem_filter]
  simp

theorem nodup_dropEmptyDedupSort (l : List String) : (dropEmptyDedupSort l).Nodup :=
  ((List.perm_insertionSort _ _).symm).nodup (List.nodup_dedup _)

theorem sorted_dropEmptyDedupSort (l : List String) :
    List.Sorted (fun a b => strLeB a b = true) (dropEmptyDedupSort l) :=
  List.sorted_insertionSort _ _

/-! Hexadecimal digest lemmas. -/

theorem length_hexChars : ∀ k n : Nat, (hexChars k n).length = k
  | 0, _ => rfl
  | k + 1, n => by simp [hexChars, length_hexChars k]

theorem hexDigit_range {m : Nat} (h : m < 16) :
    ('0' ≤ hexDigit m ∧ hexDigit m ≤ '9') ∨ ('a' ≤ hexDigit m ∧ hexDigit m ≤ 'f') := by
  have hall : ∀ m' : Nat, m' < 16 →
      ('0' ≤ hexDigit m' ∧ hexDigit m' ≤ '9') ∨ ('a' ≤ hexDigit m' ∧ hexDigit m' ≤ 'f') := by
    decide
  exact hall m h

theorem mem_hexChars {c : Char} : ∀ (k n : Nat), c ∈ hexChars k n →
    ∃ m : Nat, m < 16 ∧ c = hexDigit m := by
  intro k
  induction k with
  | zero =>
    intro n h
    cases h
  | succ k ih =>
    intro n h
    rcases List.mem_append.mp h with h | h
    · exact ih (n / 16) h
    · refine ⟨n % 16, Nat.mod_lt _ (by decide), ?_⟩
      simpa using h

theorem digest12_length (bytes : List Nat) : (digest12 bytes).length = 12 :=
  length_hexChars 12 (fnv64 bytes)

theorem digest12_lower_hex (bytes : List Nat) :
    ∀ c ∈ (digest12 bytes).data, ('0' ≤ c ∧ c ≤ '9') ∨ ('a' ≤ c ∧ c ≤ 'f') := by
  intro c hc
  obtain ⟨m, hm, he⟩ := mem_hexChars 12 (fnv64 bytes) hc
  exact he ▸ hexDigit_range hm

/-! Pipeline frame lemmas: the Tree Mutator touches only the pod template
metadata, so classification, typed decoding and the checksum tables are
unaffected by it. -/

theorem metaPath_split (mode : Mode) :
    metaPath mode = ["spec", "template"] ++ "metadata" :: [targetField mode] := rfl

theorem metaPath_split_top (mode : Mode) :
    metaPath mode = [] ++ "spec" :: ["template", "metadata", targetField mode] := rfl

theorem getPath_kind_processDeploymentDoc (dd : deploymentDoc)
    (cmH sH : List (String × String)) (mode : Mode) :
    getPath (processDeploymentDoc dd cmH sH mode) ["kind"] = getPath dd.node ["kind"] := by
  unfold processDeploymentDoc
  by_cases h : (checksumPairs dd.obj cmH sH).isEmpty = true
  · simp [h]
  · simp only [h, if_false]
    rw [metaPath_split_top]
    exact getPath_updatePath_ne [] (by decide) _ [] _ dd.node

theorem kindOf_processDeploymentDoc (dd : deploymentDoc)
    (cmH sH : List (String × String)) (mode : Mode) :
    kindOf (processDeploymentDoc dd cmH sH mode) = kindOf dd.node := by
  unfold kindOf scalarAt
  rw [getPath_kind_processDeploymentDoc]

theorem decodeDeployment_processDeploymentDoc (dd : deploymentDoc)
    (cmH sH : List (String × String)) (mode : Mode) :
    decodeDeployment (processDeploymentDoc dd cmH sH mode) = decodeDeployment dd.node := by
  have hvol : ∀ f, getPath (updatePath dd.node (metaPath mode) f)
      ["spec", "template", "spec", "volumes"]
      = getPath dd.node ["spec", "template", "spec", "volumes"] := by
    intro f
    rw [metaPath_split]
    exact getPath_updatePath_ne ["spec", "template"] (by decide) [targetField mode]
      ["volumes"] f dd.node
  have hcon : ∀ f, getPath (updatePath dd.node (metaPath mode) f)
      ["spec", "template", "spec", "containers"]
      = getPath dd.node ["spec", "template", "spec", "containers"] := by
    intro f
    rw [metaPath_split]
    exact getPath_updatePath_ne ["spec", "template"] (by decide) [targetField mode]
      ["containers"] f dd.node
  by_cases h : (checksumPairs dd.obj cmH sH).isEmpty = true
  · have hpd : processDeploymentDoc dd cmH sH mode = dd.node := by
      simp [processDeploymentDoc, h]
    rw [hpd]
  · have hpd : processDeploymentDoc dd cmH sH mode
        = updatePath dd.node (metaPath mode)
            (fun m => foldSet ((checksumPairs dd.obj cmH sH).map
              (fun p => (p.1, Yaml.scalar p.2))) m) := by
      simp [processDeploymentDoc, h]
    rw [hpd]
    unfold decodeDeployment itemsAt
    rw [hvol _, hcon _]

theorem kindOf_processDoc (cmH sH : List (String × String)) (mode : Mode) (d : Yaml) :
    kindOf (processDoc cmH sH mode d) = kindOf d := by
  unfold processDoc
  by_cases h : kindOf d = "Deployment"
  · simp [h, kindOf_processDeploymentDoc]
  · simp [h]

theorem processDoc_eq_of_kind_ne {d : Yaml} (cmH sH : List (String × String)) (mode : Mode)
    (h : kindOf d ≠ "Deployment") : processDoc cmH sH mode d = d := by
  simp [processDoc, h]

theorem decodeDeployment_processDoc (cmH sH : List (String × String)) (mode : Mode)
    (d : Yaml) : decodeDeployment (processDoc cmH sH mode d) = decodeDeployment d := by
  unfold processDoc
  by_cases h : kindOf d = "Deployment"
  · simp only [h, if_pos]
    exact decodeDeployment_processDeploymentDoc ⟨d, decodeDeployment d⟩ cmH sH mode
  · simp [h]

theorem cmTableStep_processDoc (t cmH sH : List (String × String)) (mode : Mode) (d : Yaml) :
    cmTableStep t (processDoc cmH sH mode d) = cmTableStep t d := by
  by_cases h : kindOf d = "Deployment"
  · have hk : kindOf (processDoc cmH sH mode d) = "Deployment" := by
      rw [kindOf_processDoc]
      exact h
    simp [cmTableStep, hk, h]
  · rw [processDoc_eq_of_kind_ne cmH sH mode h]

theorem secretTableStep_processDoc (t cmH sH : List (String × String)) (mode : Mode)
    (d : Yaml) : secretTableStep t (processDoc cmH sH mode d) = secretTableStep t d := by
  by_cases h : kindOf d = "Deployment"
  · have hk : kindOf (processDoc cmH sH mode d) = "Deployment" := by
      rw [kindOf_processDoc]
      exact h
    simp [secretTableStep, hk, h]
  · rw [processDoc_eq_of_kind_ne cmH sH mode h]

theorem foldl_fun_congr {α β : Type} {f g : α → β → α} (h : ∀ t a, f t a = g t a) :
    ∀ (l : List β) (i : α), l.foldl f i = l.foldl g i := by
  intro l
  induction l with
  | nil => intro i; rfl
  | cons a l ih =>
    intro i
    simp only [List.foldl_cons, h, ih]

theorem buildCMTable_map (docs : List Yaml) (cmH sH : List (String × String))
    (mode : Mode) :
    buildCMTable (docs.map (processDoc cmH sH mode)) = buildCMTable docs := by
  unfold buildCMTable
  rw [List.foldl_map]
  exact foldl_fun_congr (fun t d => cmTableStep_processDoc t cmH sH mode d) docs []

theorem buildSecretTable_map (docs : List Yaml) (cmH sH : List (String × String))
    (mode : Mode) :
    buildSecretTable (docs.map (processDoc cmH sH mode)) = buildSecretTable docs := by
  unfold buildSecretTable
  rw [List.foldl_map]
  exact foldl_fun_congr (fun t d => secretTableStep_processDoc t cmH sH mode d) docs []

theorem processDoc_idem (cmH sH : List (String × String)) (mode : Mode) (d : Yaml) :
    processDoc cmH sH mode (processDoc cmH sH mode d) = processDoc cmH sH mode d := by
  by_cases h : kindOf d = "Deployment"
  · have hk : kindOf (processDoc cmH sH mode d) = "Deployment" := by
      rw [kindOf_processDoc]
      exact h
    have hdec : decodeDeployment (processDoc cmH sH mode d) = decodeDeployment d :=
      decodeDeployment_processDoc cmH sH mode d
    conv =>
      lhs
      rw [processDoc]
    rw [if_pos hk, hdec]
    have hinner : processDoc cmH sH mode d
        = processDeploymentDoc ⟨d, decodeDeployment d⟩ cmH sH mode := by
      rw [processDoc, if_pos h]
    rw [hinner]
    by_cases hp : (checksumPairs (decodeDeployment d) cmH sH).isEmpty = true
    · rw [processDeploymentDoc]
      simp only
      rw [if_pos hp]
    · rw [processDeploymentDoc, processDeploymentDoc]
      simp only
      rw [if_neg hp, if_neg hp]
      rw [updatePath_updatePath]
      congr 1
      funext m
      exact foldSet_idem m _
  · rw [processDoc_eq_of_kind_ne cmH sH mode h, processDoc_eq_of_kind_ne cmH sH mode h]

theorem parseStream_map_some (l : List Yaml) : parseStream (l.map some) = l := by
  simp [parseStream, List.filterMap_map, Function.comp]

/-! Supporting lemmas for the claim theorems. -/

theorem injectChecksums_valid {mode : Mode} (h : mode = ModeLabel ∨ mode = ModeAnnot)
    (input : List (Option Yaml)) :
    InjectChecksums input mode
      = .ok ((parseStream input).map
          (processDoc (buildCMTable (parseStream input))
            (buildSecretTable (parseStream input)) mode)) := by
  simp [InjectChecksums, h]

theorem lookupKey_mem {β : Type} {l : List (String × β)} {k : String} {v : β}
    (h : lookupKey l k = some v) : (k, v) ∈ l := by
  induction l with
  | nil => simp [lookupKey] at h
  | cons p rest ih =>
    obtain ⟨a, b⟩ := p
    by_cases ha : a = k
    · subst ha
      simp only [lookupKey, if_pos rfl, if_true, eq_self_iff_true, Option.some.injEq] at h
      subst h
      exact List.mem_cons_self _ _
    · simp only [lookupKey, if_neg ha] at h
      exact List.mem_cons_of_mem _ (ih h)

theorem lookup_foldl_cmTable (docs : List Yaml) :
    ∀ t : List (String × String),
      (∀ k v, lookupKey t k = some v → ∃ cm : ConfigMap, v = hashConfigMap cm) →
      ∀ k v, lookupKey (docs.foldl cmTableStep t) k = some v →
        ∃ cm : ConfigMap, v = hashConfigMap cm := by
  induction docs with
  | nil =>
    intro t ht k v h
    exact ht k v h
  | cons d ds ih =>
    intro t ht k v h
    refine ih (cmTableStep t d) ?_ k v h
    intro k' v' h'
    by_cases hk : kindOf d = "ConfigMap"
    · by_cases hn : (decodeConfigMap d).name = ""
      · simp only [cmTableStep, hk, if_pos, hn, if_true] at h'
        exact ht k' v' h'
      · simp only [cmTableStep, hk, if_pos, hn, if_false] at h'
        by_cases hk' : k' = (decodeConfigMap d).name
        · subst hk'
          rw [lookupKey_setKey_self] at h'
          exact ⟨decodeConfigMap d, (Option.some.injEq _ _ ▸ h').symm⟩
        · rw [lookupKey_setKey_ne _ _ hk'] at h'
          exact ht k' v' h'
    · simp only [cmTableStep, hk, if_false] at h'
      exact ht k' v' h'

theorem lookupKey_buildCMTable_hash {docs : List Yaml} {k v : String}
    (h : lookupKey (buildCMTable docs) k = some v) :
    ∃ cm : ConfigMap, v = hashConfigMap cm :=
  lookup_foldl_cmTable docs [] (by intro k' v' h'; simp [lookupKey] at h') k v h

theorem lookup_foldl_secretTable (docs : List Yaml) :
    ∀ t : List (String × String),
      (∀ k v, lookupKey t k = some v → ∃ s : Secret, v = hashSecret s) →
      ∀ k v, lookupKey (docs.foldl secretTableStep t) k = some v →
        ∃ s : Secret, v = hashSecret s := by
  induction docs with
  | nil =>
    intro t ht k v h
    exact ht k v h
  | cons d ds ih =>
    intro t ht k v h
    refine ih (secretTableStep t d) ?_ k v h
    intro k' v' h'
    by_cases hk : kindOf d = "Secret"
    · by_cases hn : (decodeSecret d).name = ""
      · simp only [secretTableStep, hk, if_pos, hn, if_true] at h'
        exact ht k' v' h'
      · simp only [secretTableStep, hk, if_pos, hn, if_false] at h'
        by_cases hk' : k' = (decodeSecret d).name
        · subst hk'
          rw [lookupKey_setKey_self] at h'
          exact ⟨decodeSecret d, (Option.some.injEq _ _ ▸ h').symm⟩
        · rw [lookupKey_setKey_ne _ _ hk'] at h'
          exact ht k' v' h'
    · simp only [secretTableStep, hk, if_false] at h'
      exact ht k' v' h'

theorem lookupKey_buildSecretTable_hash {docs : List Yaml} {k v : String}
    (h : lookupKey (buildSecretTable docs) k = some v) :
    ∃ s : Secret, v = hashSecret s :=
  lookup_foldl_secretTable docs [] (by intro k' v' h'; simp [lookupKey] at h') k v h

/-! Claim theorems. -/

/-- C1: for ConfigMaps (and Secrets) whose data maps hold exactly the same
key-to-value entries, `hashConfigMap` (resp. `hashSecret`) returns the same
hash string regardless of declaration order, and the hash — the truncated
hexadecimal digest of the sorted-key byte stream — is 12 characters long. -/
theorem spec_C1 :
    (∀ cm₁ cm₂ : ConfigMap, cm₁.data.Perm cm₂.data → (cm₁.data.map Prod.fst).Nodup →
      hashConfigMap cm₁ = hashConfigMap cm₂) ∧
    (∀ s₁ s₂ : Secret, s₁.data.Perm s₂.data → (s₁.data.map Prod.fst).Nodup →
      hashSecret s₁ = hashSecret s₂) ∧
    (∀ cm : ConfigMap, (hashConfigMap cm).length = 12) ∧
    (∀ s : Secret, (hashSecret s).length = 12) := by
  refine ⟨?_, ?_, fun cm => digest12_length _, fun s => digest12_length _⟩
  · intro cm₁ cm₂ hp hnd
    have hnd' : ((cm₁.data.map (fun p => (p.1, strBytes p.2))).map Prod.fst).Nodup := by
      rw [List.map_map]
      exact hnd
    unfold hashConfigMap canonicalBytes
    rw [sortByKey_eq_of_perm (hp.map _) hnd']
  · intro s₁ s₂ hp hnd
    unfold hashSecret canonicalBytes
    rw [sortByKey_eq_of_perm hp hnd]

/-- C1 witness: the two ConfigMaps of `TestHashConfigMapAndSecretDeterministic`
hash identically despite different declaration order. -/
theorem spec_C1_witness :
    hashConfigMap ⟨"x", [("b", "two"), ("a", "one")]⟩
      = hashConfigMap ⟨"x", [("a", "one"), ("b", "two")]⟩ :=
  spec_C1.1 ⟨"x", [("b", "two"), ("a", "one")]⟩ ⟨"x", [("a", "one"), ("b", "two")]⟩
    (by decide) (by decide)

/-- C5: label-mode injection leaves the annotations mapping exactly as it
was, and annotation-mode injection leaves the labels mapping exactly as it
was — the two pod template metadata targets are independent. -/
theorem spec_C5 (dd : deploymentDoc) (cmHashes secretHashes : List (String × String)) :
    getPath (processDeploymentDoc dd cmHashes secretHashes ModeLabel)
        ["spec", "template", "metadata", "annotations"]
      = getPath dd.node ["spec", "template", "metadata", "annotations"] ∧
    getPath (processDeploymentDoc dd cmHashes secretHashes ModeAnnot)
        ["spec", "template", "metadata", "labels"]
      = getPath dd.node ["spec", "template", "metadata", "labels"] := by
  constructor
  · by_cases h : (checksumPairs dd.obj cmHashes secretHashes).isEmpty = true
    · have hpd : processDeploymentDoc dd cmHashes secretHashes ModeLabel = dd.node := by
        simp [processDeploymentDoc, h]
      rw [hpd]
    · have hpd : processDeploymentDoc dd cmHashes secretHashes ModeLabel
          = updatePath dd.node (metaPath ModeLabel)
              (fun m => foldSet ((checksumPairs dd.obj cmHashes secretHashes).map
                (fun p => (p.1, Yaml.scalar p.2))) m) := by
        simp [processDeploymentDoc, h]
      rw [hpd]
      rw [show metaPath ModeLabel = ["spec", "template", "metadata"] ++ "labels" :: [] from rfl]
      exact getPath_updatePath_ne ["spec", "template", "metadata"] (by decide) [] [] _ dd.node
  · by_cases h : (checksumPairs dd.obj cmHashes secretHashes).isEmpty = true
    · have hpd : processDeploymentDoc dd cmHashes secretHashes ModeAnnot = dd.node := by
        simp [processDeploymentDoc, h]
      rw [hpd]
    · have hpd : processDeploymentDoc dd cmHashes secretHashes ModeAnnot
          = updatePath dd.node (metaPath ModeAnnot)
              (fun m => foldSet ((checksumPairs dd.obj cmHashes secretHashes).map
                (fun p => (p.1, Yaml.scalar p.2))) m) := by
        simp [processDeploymentDoc, h]
      rw [hpd]
      rw [show metaPath ModeAnnot = ["spec", "template", "metadata"] ++ "annotations" :: []
        from rfl]
      exact getPath_updatePath_ne ["spec", "template", "metadata"] (by decide) [] [] _ dd.node

/-- C7: every checksum pair of a Deployment has key exactly
`checksum/configmap-` or `checksum/secret-` followed by the sanitized
resource name, and a value that is a 12-character lowercase hexadecimal
string; `sanitizeKey` replaces every period with a hyphen and leaves every
other character unchanged. -/
theorem spec_C7 :
    (∀ (docs : List Yaml) (obj : Deployment) (p : String × String),
      p ∈ checksumPairs obj (buildCMTable docs) (buildSecretTable docs) →
        ((∃ n, n ∈ (referencedObjects obj).1
            ∧ p.1 = "checksum/configmap-" ++ sanitizeKey n) ∨
          (∃ n, n ∈ (referencedObjects obj).2
            ∧ p.1 = "checksum/secret-" ++ sanitizeKey n)) ∧
        p.2.length = 12 ∧
        (∀ c ∈ p.2.data, ('0' ≤ c ∧ c ≤ '9') ∨ ('a' ≤ c ∧ c ≤ 'f'))) ∧
    (∀ s : String, (sanitizeKey s).data
      = s.data.map (fun c => if c = '.' then '-' else c)) := by
  constructor
  · intro docs obj p hp
    unfold checksumPairs at hp
    rcases List.mem_append.mp hp with hp | hp
    · obtain ⟨n, hn, he⟩ := List.mem_filterMap.mp hp
      rw [Option.map_eq_some'] at he
      obtain ⟨hh, hl, hpe⟩ := he
      obtain ⟨cm, hcm⟩ := lookupKey_buildCMTable_hash hl
      subst hpe
      subst hcm
      exact ⟨Or.inl ⟨n, hn, rfl⟩, digest12_length _, digest12_lower_hex _⟩
    · obtain ⟨n, hn, he⟩ := List.mem_filterMap.mp hp
      rw [Option.map_eq_some'] at he
      obtain ⟨hh, hl, hpe⟩ := he
      obtain ⟨s, hs⟩ := lookupKey_buildSecretTable_hash hl
      subst hpe
      subst hs
      exact ⟨Or.inr ⟨n, hn, rfl⟩, digest12_length _, digest12_lower_hex _⟩
  · intro s
    rfl

/-- C7 witness: the sample Deployment's pair list against the sample stream
contains the ConfigMap pair with sanitized key and a 12-character value. -/
theorem spec_C7_witness :
    (("checksum/configmap-app-config", hashConfigMap (decodeConfigMap sampleConfigMap))
      : String × String).2.length = 12 :=
  (spec_C7.1 [sampleConfigMap, sampleSecret, sampleDeployment]
    (decodeDeployment sampleDeployment)
    ("checksum/configmap-app-config", hashConfigMap (decodeConfigMap sampleConfigMap))
    (by decide)).2.1

/-- C8: a Secret's byte data and string data are merged by the typed decoder
into one key space before hashing, and on a colliding key the string data
entry wins. -/
theorem spec_C8 :
    (∀ doc : Yaml,
      (decodeSecret doc).data
        = mergeSecretData (secretEntries doc "data") (secretEntries doc "stringData") ∧
      hashSecret (decodeSecret doc)
        = digest12 (canonicalBytes (mergeSecretData (secretEntries doc "data")
            (secretEntries doc "stringData")))) ∧
    (∀ (d sd : List (String × List Nat)) (k : String),
      lookupKey (mergeSecretData d sd) k = (lastLookup sd k).or (lookupKey d k)) ∧
    (∀ d sd : List (String × List Nat), (sd.map Prod.fst).Nodup →
      ∀ (k : String) (v : List Nat), lookupKey sd k = some v →
        lookupKey (mergeSecretData d sd) k = some v) := by
  refine ⟨fun doc => ⟨rfl, rfl⟩, ?_, ?_⟩
  · intro d sd k
    exact lookupKey_foldSet sd d k
  · intro d sd hnd k v hk
    show lookupKey (foldSet sd d) k = some v
    rw [lookupKey_foldSet, lastLookup_of_mem_nodup hnd (lookupKey_mem hk)]
    rfl

/-- C8 witness: on the colliding key `a`, string data (value bytes of
`"new"`) wins over byte data (value bytes of `"old"`). -/
theorem spec_C8_witness :
    lookupKey (mergeSecretData [("a", strBytes "old")] [("a", strBytes "new")]) "a"
      = some (strBytes "new") :=
  spec_C8.2.2 [("a", strBytes "old")] [("a", strBytes "new")] (by decide) "a"
    (strBytes "new") (by decide)

/-- C9: any mode other than `label` or `annotation` makes `InjectChecksums`
return an error and no output, independently of the input (so before any
document processing), and makes the process exit with code 1 and write no
output stream. -/
theorem spec_C9 {mode : Mode} (h1 : mode ≠ ModeLabel) (h2 : mode ≠ ModeAnnot)
    (input : List (Option Yaml)) :
    InjectChecksums input mode = .error ("invalid mode: " ++ mode) ∧
    InjectChecksums input mode = InjectChecksums [] mode ∧
    mainRun mode input = (1, none) := by
  have hv : ¬(mode = ModeLabel ∨ mode = ModeAnnot) := by
    rintro (h | h)
    exacts [h1 h, h2 h]
  refine ⟨?_, ?_, ?_⟩
  · simp [InjectChecksums, hv]
  · simp [InjectChecksums, hv]
  · simp [mainRun, InjectChecksums, hv]

/-- C9 witness: mode `bogus` on the sample stream errors out with exit 1. -/
theorem spec_C9_witness :
    InjectChecksums sampleInput "bogus" = .error ("invalid mode: " ++ "bogus") ∧
    InjectChecksums sampleInput "bogus" = InjectChecksums [] "bogus" ∧
    mainRun "bogus" sampleInput = (1, none) :=
  spec_C9 (by decide) (by decide) sampleInput

/-- C2: a successful run emits exactly one output document per non-empty
input document, positionally in input order; a document that is not a
Deployment, or a Deployment with no resolvable reference (empty checksum
pair list), is emitted unchanged, and any document that changed must be a
Deployment with at least one resolvable reference. -/
theorem spec_C2 {input : List (Option Yaml)} {mode : Mode} {out : List Yaml}
    (h : InjectChecksums input mode = .ok out) :
    out.length = (parseStream input).length ∧
    ∀ (i : Nat) (d : Yaml), (parseStream input)[i]? = some d →
      (kindOf d ≠ "Deployment" → out[i]? = some d) ∧
      (checksumPairs (decodeDeployment d) (buildCMTable (parseStream input))
          (buildSecretTable (parseStream input)) = [] → out[i]? = some d) ∧
      (out[i]? ≠ some d →
        kindOf d = "Deployment" ∧
        checksumPairs (decodeDeployment d) (buildCMTable (parseStream input))
          (buildSecretTable (parseStream input)) ≠ []) := by
  by_cases hv : mode = ModeLabel ∨ mode = ModeAnnot
  · rw [injectChecksums_valid hv] at h
    have hout : out = (parseStream input).map
        (processDoc (buildCMTable (parseStream input))
          (buildSecretTable (parseStream input)) mode) := by
      simp only [Except.ok.injEq] at h
      exact h.symm
    subst hout
    refine ⟨List.length_map _ _, ?_⟩
    intro i d hd
    have hmap : ((parseStream input).map
        (processDoc (buildCMTable (parseStream input))
          (buildSecretTable (parseStream input)) mode))[i]?
        = some (processDoc (buildCMTable (parseStream input))
            (buildSecretTable (parseStream input)) mode d) := by
      rw [List.getElem?_map, hd]
      rfl
    have hid2 : checksumPairs (decodeDeployment d) (buildCMTable (parseStream input))
        (buildSecretTable (parseStream input)) = [] →
        processDoc (buildCMTable (parseStream input))
          (buildSecretTable (parseStream input)) mode d = d := by
      intro hp
      by_cases hk : kindOf d = "Deployment"
      · simp [processDoc, hk, processDeploymentDoc, hp]
      · simp [processDoc, hk]
    refine ⟨?_, ?_, ?_⟩
    · intro hk
      rw [hmap, processDoc_eq_of_kind_ne _ _ _ hk]
    · intro hp
      rw [hmap, hid2 hp]
    · intro hne
      constructor
      · by_contra hk
        exact hne (by rw [hmap, processDoc_eq_of_kind_ne _ _ _ hk])
      · intro hp
        exact hne (by rw [hmap, hid2 hp])
  · simp [InjectChecksums, hv] at h

/-- C2 witness: the sample annotation-mode run succeeds with three output
documents for the three non-empty input documents. -/
theorem spec_C2_witness :
    InjectChecksums sampleInput ModeAnnot = .ok sampleOut ∧
    sampleOut.length = (parseStream sampleInput).length :=
  ⟨rfl, (spec_C2 (show InjectChecksums sampleInput ModeAnnot = .ok sampleOut from rfl)).1⟩

/-- C3: the two sequences returned by `referencedObjects` hold exactly the
non-empty ConfigMap (resp. Secret) names referenced by the pod template's
volumes, by every container's `envFrom` entries, and by every container's
`env` entries sourced from a ConfigMap or Secret key — literal-valued env
entries contribute nothing — with duplicates merged and each sequence
sorted lexicographically. -/
theorem spec_C3 (d : Deployment) :
    (∀ n : String, n ∈ (referencedObjects d).1 ↔
      n ≠ "" ∧ ((∃ v ∈ d.volumes, v.configMap = some n) ∨
        ∃ c ∈ d.containers, (∃ e ∈ c.envFrom, e.configMapRef = some n) ∨
          ∃ e ∈ c.env, e.configMapKeyRef = some n)) ∧
    (∀ n : String, n ∈ (referencedObjects d).2 ↔
      n ≠ "" ∧ ((∃ v ∈ d.volumes, v.secret = some n) ∨
        ∃ c ∈ d.containers, (∃ e ∈ c.envFrom, e.secretRef = some n) ∨
          ∃ e ∈ c.env, e.secretKeyRef = some n)) ∧
    (referencedObjects d).1.Nodup ∧ (referencedObjects d).2.Nodup ∧
    List.Sorted (fun a b => strLeB a b = true) (referencedObjects d).1 ∧
    List.Sorted (fun a b => strLeB a b = true) (referencedObjects d).2 := by
  refine ⟨?_, ?_, nodup_dropEmptyDedupSort _, nodup_dropEmptyDedupSort _,
    sorted_dropEmptyDedupSort _, sorted_dropEmptyDedupSort _⟩
  · intro n
    constructor
    · intro hn
      obtain ⟨hmem, hne⟩ := mem_dropEmptyDedupSort.mp hn
      refine ⟨hne, ?_⟩
      rcases List.mem_append.mp hmem with hm | hm
      · obtain ⟨v, hv, he⟩ := List.mem_filterMap.mp hm
        exact Or.inl ⟨v, hv, he⟩
      · obtain ⟨c, hc, hm'⟩ := List.mem_flatMap.mp hm
        rcases List.mem_append.mp hm' with hm'' | hm''
        · obtain ⟨e, he, hee⟩ := List.mem_filterMap.mp hm''
          exact Or.inr ⟨c, hc, Or.inl ⟨e, he, hee⟩⟩
        · obtain ⟨e, he, hee⟩ := List.mem_filterMap.mp hm''
          exact Or.inr ⟨c, hc, Or.inr ⟨e, he, hee⟩⟩
    · rintro ⟨hne, hsrc⟩
      refine mem_dropEmptyDedupSort.mpr ⟨?_, hne⟩
      rcases hsrc with ⟨v, hv, he⟩ | ⟨c, hc, ⟨e, he, hee⟩ | ⟨e, he, hee⟩⟩
      · exact List.mem_append.mpr (Or.inl (List.mem_filterMap.mpr ⟨v, hv, he⟩))
      · exact List.mem_append.mpr (Or.inr (List.mem_flatMap.mpr ⟨c, hc,
          List.mem_append.mpr (Or.inl (List.mem_filterMap.mpr ⟨e, he, hee⟩))⟩))
      · exact List.mem_append.mpr (Or.inr (List.mem_flatMap.mpr ⟨c, hc,
          List.mem_append.mpr (Or.inr (List.mem_filterMap.mpr ⟨e, he, hee⟩))⟩))
  · intro n
    constructor
    · intro hn
      obtain ⟨hmem, hne⟩ := mem_dropEmptyDedupSort.mp hn
      refine ⟨hne, ?_⟩
      rcases List.mem_append.mp hmem with hm | hm
      · obtain ⟨v, hv, he⟩ := List.mem_filterMap.mp hm
        exact Or.inl ⟨v, hv, he⟩
      · obtain ⟨c, hc, hm'⟩ := List.mem_flatMap.mp hm
        rcases List.mem_append.mp hm' with hm'' | hm''
        · obtain ⟨e, he, hee⟩ := List.mem_filterMap.mp hm''
          exact Or.inr ⟨c, hc, Or.inl ⟨e, he, hee⟩⟩
        · obtain ⟨e, he, hee⟩ := List.mem_filterMap.mp hm''
          exact Or.inr ⟨c, hc, Or.inr ⟨e, he, hee⟩⟩
    · rintro ⟨hne, hsrc⟩
      refine mem_dropEmptyDedupSort.mpr ⟨?_, hne⟩
      rcases hsrc with ⟨v, hv, he⟩ | ⟨c, hc, ⟨e, he, hee⟩ | ⟨e, he, hee⟩⟩
      · exact List.mem_append.mpr (Or.inl (List.mem_filterMap.mpr ⟨v, hv, he⟩))
      · exact List.mem_append.mpr (Or.inr (List.mem_flatMap.mpr ⟨c, hc,
          List.mem_append.mpr (Or.inl (List.mem_filterMap.mpr ⟨e, he, hee⟩))⟩))
      · exact List.mem_append.mpr (Or.inr (List.mem_flatMap.mpr ⟨c, hc,
          List.mem_append.mpr (Or.inr (List.mem_filterMap.mpr ⟨e, he, hee⟩))⟩))

/-- C4: for a non-empty checksum pair list, `processDeploymentDoc` rewrites
the mode's target mapping to the `setKey` fold of the pairs: a key already
present is overwritten in place, a new key is appended at the end, every
pre-existing entry with a key outside the pair list keeps its binding and
its position (nothing is removed); an empty pair list leaves the whole tree
untouched. -/
theorem spec_C4 (dd : deploymentDoc) (cmHashes secretHashes : List (String × String))
    (mode : Mode) (pairs : List (String × String))
    (hpairs : checksumPairs dd.obj cmHashes secretHashes = pairs) :
    (pairs = [] → processDeploymentDoc dd cmHashes secretHashes mode = dd.node) ∧
    (pairs ≠ [] →
      entriesAt (processDeploymentDoc dd cmHashes secretHashes mode) (metaPath mode)
        = foldSet (pairs.map (fun p => (p.1, Yaml.scalar p.2)))
            (entriesAt dd.node (metaPath mode)) ∧
      (∀ k, k ∉ pairs.map Prod.fst →
        lookupKey (entriesAt (processDeploymentDoc dd cmHashes secretHashes mode)
            (metaPath mode)) k
          = lookupKey (entriesAt dd.node (metaPath mode)) k) ∧
      ((pairs.map Prod.fst).Nodup →
        (∀ k v, (k, v) ∈ pairs →
          lookupKey (entriesAt (processDeploymentDoc dd cmHashes secretHashes mode)
              (metaPath mode)) k = some (Yaml.scalar v)) ∧
        (entriesAt (processDeploymentDoc dd cmHashes secretHashes mode)
            (metaPath mode)).map Prod.fst
          = (entriesAt dd.node (metaPath mode)).map Prod.fst
            ++ (pairs.map Prod.fst).filter
                (fun k => decide (k ∉ (entriesAt dd.node (metaPath mode)).map Prod.fst)))) := by
  subst hpairs
  constructor
  · intro hnil
    simp [processDeploymentDoc, hnil]
  · intro hne
    have hemp : ¬((checksumPairs dd.obj cmHashes secretHashes).isEmpty = true) := by
      simpa using hne
    have hpd : processDeploymentDoc dd cmHashes secretHashes mode
        = updatePath dd.node (metaPath mode)
            (fun m => foldSet ((checksumPairs dd.obj cmHashes secretHashes).map
              (fun p => (p.1, Yaml.scalar p.2))) m) := by
      simp [processDeploymentDoc, hemp]
    have hent : entriesAt (processDeploymentDoc dd cmHashes secretHashes mode) (metaPath mode)
        = foldSet ((checksumPairs dd.obj cmHashes secretHashes).map
            (fun p => (p.1, Yaml.scalar p.2))) (entriesAt dd.node (metaPath mode)) := by
      rw [hpd]
      unfold entriesAt
      rw [getPath_updatePath_self (metaPath mode) _ dd.node]
      rfl
    have hkeysP : (((checksumPairs dd.obj cmHashes secretHashes).map
        (fun p => (p.1, Yaml.scalar p.2))).map Prod.fst)
        = (checksumPairs dd.obj cmHashes secretHashes).map Prod.fst := by
      rw [List.map_map]
      rfl
    refine ⟨hent, ?_, ?_⟩
    · intro k hk
      rw [hent, lookupKey_foldSet, lastLookup_eq_none (by rw [hkeysP]; exact hk),
        Option.none_or]
    · intro hnd
      have hndP : ((((checksumPairs dd.obj cmHashes secretHashes).map
          (fun p => (p.1, Yaml.scalar p.2))).map Prod.fst)).Nodup := by
        rw [hkeysP]
        exact hnd
      constructor
      · intro k v hkv
        rw [hent, lookupKey_foldSet,
          lastLookup_of_mem_nodup hndP (List.mem_map.mpr ⟨(k, v), hkv, rfl⟩)]
        rfl
      · rw [hent, keys_foldSet _ _ hndP, hkeysP]

/-- C4 witness: against the fake hash tables of `TestProcessDeploymentDocModes`,
both checksum keys are present with their table values after a label-mode
run on the sample Deployment. -/
theorem spec_C4_witness :
    lookupKey (entriesAt (processDeploymentDoc
        ⟨sampleDeployment, decodeDeployment sampleDeployment⟩
        [("app.config", "111111111111")] [("top.secret", "333333333333")] ModeLabel)
      (metaPath ModeLabel)) "checksum/configmap-app-config"
      = some (.scalar "111111111111") :=
  (((spec_C4 ⟨sampleDeployment, decodeDeployment sampleDeployment⟩
      [("app.config", "111111111111")] [("top.secret", "333333333333")] ModeLabel
      [("checksum/configmap-app-config", "111111111111"),
        ("checksum/secret-top-secret", "333333333333")]
      (by decide)).2 (by decide)).2.2 (by decide)).1
    "checksum/configmap-app-config" "111111111111" (by decide)

/-- C6: running `InjectChecksums` again on its own output, in the same mode,
reproduces that output exactly — the second run overwrites the checksum
entries already present instead of appending duplicates. -/
theorem spec_C6 {input : List (Option Yaml)} {mode : Mode} {y : List Yaml}
    (h : InjectChecksums input mode = .ok y) :
    InjectChecksums (y.map some) mode = .ok y := by
  by_cases hv : mode = ModeLabel ∨ mode = ModeAnnot
  · rw [injectChecksums_valid hv] at h
    have hy : y = (parseStream input).map
        (processDoc (buildCMTable (parseStream input))
          (buildSecretTable (parseStream input)) mode) := by
      simp only [Except.ok.injEq] at h
      exact h.symm
    subst hy
    rw [injectChecksums_valid hv, parseStream_map_some]
    rw [buildCMTable_map, buildSecretTable_map, List.map_map]
    refine congrArg Except.ok ?_
    exact List.map_congr_left (fun d _ => processDoc_idem _ _ _ d)
  · simp [InjectChecksums, hv] at h

/-- C6 witness: re-running the sample annotation-mode output through the
pipeline reproduces it unchanged. -/
theorem spec_C6_witness :
    InjectChecksums (sampleOut.map some) ModeAnnot = .ok sampleOut :=
  spec_C6 (show InjectChecksums sampleInput ModeAnnot = .ok sampleOut from rfl)

/-- C10: a ConfigMap with an absent or empty data map still gets the
well-defined 12-character hash of the empty byte sequence; with a non-empty
name it enters the checksum table under that name, and a Deployment that
references the name receives the corresponding checksum key in its pod
template metadata. -/
theorem spec_C10 :
    (∀ cm : ConfigMap, cm.data = [] →
      hashConfigMap cm = digest12 [] ∧ (hashConfigMap cm).length = 12) ∧
    (∀ n : String, n ≠ "" →
      lookupKey (buildCMTable [cmDocNoData n, depDocRefCM n]) n = some (digest12 []) ∧
      InjectChecksums [some (cmDocNoData n), some (depDocRefCM n)] ModeLabel
        = .ok [cmDocNoData n, depDocInjected n] ∧
      lookupKey (entriesAt (depDocInjected n) ["spec", "template", "metadata", "labels"])
          ("checksum/configmap-" ++ sanitizeKey n)
        = some (.scalar (digest12 []))) := by
  constructor
  · intro cm hd
    constructor
    · unfold hashConfigMap
      rw [hd]
      rfl
    · exact digest12_length _
  · intro n hn
    have htab : buildCMTable [cmDocNoData n, depDocRefCM n]
        = if n = "" then [] else [(n, digest12 [])] := rfl
    have htab' : buildCMTable [cmDocNoData n, depDocRefCM n] = [(n, digest12 [])] := by
      rw [htab, if_neg hn]
    have hfil : [n].filter (fun x => x != "") = [n] := by
      simp [hn]
    have hrefs : referencedObjects (decodeDeployment (depDocRefCM n)) = ([n], []) := by
      show (dropEmptyDedupSort [n], dropEmptyDedupSort []) = ([n], [])
      unfold dropEmptyDedupSort
      rw [hfil]
      rfl
    have hcp : checksumPairs (decodeDeployment (depDocRefCM n))
        (buildCMTable [cmDocNoData n, depDocRefCM n])
        (buildSecretTable [cmDocNoData n, depDocRefCM n])
        = [("checksum/configmap-" ++ sanitizeKey n, digest12 [])] := by
      unfold checksumPairs
      rw [hrefs, htab']
      simp [lookupKey]
    have hpdc : processDoc (buildCMTable [cmDocNoData n, depDocRefCM n])
        (buildSecretTable [cmDocNoData n, depDocRefCM n]) ModeLabel (cmDocNoData n)
        = cmDocNoData n := rfl
    have hemp : ¬((checksumPairs (decodeDeployment (depDocRefCM n))
        (buildCMTable [cmDocNoData n, depDocRefCM n])
        (buildSecretTable [cmDocNoData n, depDocRefCM n])).isEmpty = true) := by
      rw [hcp]
      simp
    have hpdd : processDeploymentDoc ⟨depDocRefCM n, decodeDeployment (depDocRefCM n)⟩
        (buildCMTable [cmDocNoData n, depDocRefCM n])
        (buildSecretTable [cmDocNoData n, depDocRefCM n]) ModeLabel
        = updatePath (depDocRefCM n) (metaPath ModeLabel)
            (fun m => foldSet ((checksumPairs (decodeDeployment (depDocRefCM n))
              (buildCMTable [cmDocNoData n, depDocRefCM n])
              (buildSecretTable [cmDocNoData n, depDocRefCM n])).map
              (fun p => (p.1, Yaml.scalar p.2))) m) := by
      simp [processDeploymentDoc, hemp]
    have hkd : kindOf (depDocRefCM n) = "Deployment" := rfl
    have hpdinj : processDoc (buildCMTable [cmDocNoData n, depDocRefCM n])
        (buildSecretTable [cmDocNoData n, depDocRefCM n]) ModeLabel (depDocRefCM n)
        = depDocInjected n := by
      unfold processDoc
      rw [if_pos hkd, hpdd, hcp]
      rfl
    refine ⟨?_, ?_, ?_⟩
    · rw [htab']
      simp [lookupKey]
    · rw [injectChecksums_valid (Or.inl rfl)]
      have hlist : (parseStream [some (cmDocNoData n), some (depDocRefCM n)]).map
          (processDoc (buildCMTable [cmDocNoData n, depDocRefCM n])
            (buildSecretTable [cmDocNoData n, depDocRefCM n]) ModeLabel)
          = [cmDocNoData n, depDocInjected n] := by
        show [processDoc (buildCMTable [cmDocNoData n, depDocRefCM n])
            (buildSecretTable [cmDocNoData n, depDocRefCM n]) ModeLabel (cmDocNoData n),
          processDoc (buildCMTable [cmDocNoData n, depDocRefCM n])
            (buildSecretTable [cmDocNoData n, depDocRefCM n]) ModeLabel (depDocRefCM n)]
          = [cmDocNoData n, depDocInjected n]
        rw [hpdc, hpdinj]
      show Except.ok ((parseStream [some (cmDocNoData n), some (depDocRefCM n)]).map
          (processDoc (buildCMTable (parseStream [some (cmDocNoData n), some (depDocRefCM n)]))
            (buildSecretTable (parseStream [some (cmDocNoData n), some (depDocRefCM n)]))
            ModeLabel))
        = Except.ok [cmDocNoData n, depDocInjected n]
      exact congrArg Except.ok hlist
    · simp [depDocInjected, entriesAt, getPath, lookupKey, getMapD]

/-- C10 witness: the name `app.config` with no data yields the empty-payload
hash in the table and the checksum key on the referencing Deployment. -/
theorem spec_C10_witness :
    lookupKey (buildCMTable [cmDocNoData "app.config", depDocRefCM "app.config"]) "app.config"
      = some (digest12 []) ∧
    InjectChecksums [some (cmDocNoData "app.config"), some (depDocRefCM "app.config")]
        ModeLabel
      = .ok [cmDocNoData "app.config", depDocInjected "app.config"] ∧
    lookupKey (entriesAt (depDocInjected "app.config")
        ["spec", "template", "metadata", "labels"])
        ("checksum/configmap-" ++ sanitizeKey "app.config")
      = some (.scalar (digest12 [])) :=
  spec_C10.2 "app.config" (by decide)

end Injector
